import Mathlib

set_option linter.unusedVariables false

/-!
Verification of the merge-lattice construction (src/lower/merge_lattice.cpp).

The C++ source is embedded shallowly: iterator handles become a small
structure carrying an identity and the isDense flag, the expression tree
becomes an inductive type, lattice points and lattices become structures,
and every operation of merge_lattice.cpp is translated to an executable
Lean function.  Operations whose C++ version can abort (a taco_iassert
firing) or perform an out-of-bounds vector access return Option and
yield none in exactly those situations.
-/

/-- Iterator handle (storage::Iterator as used by merge_lattice.cpp):
an abstract identity plus the isDense predicate.  The spec declares the
handle an outside collaborator with equality, a total order and the
single query isDense, so it is modelled by an identity tag and a
density flag. -/
structure Iterator where
  uid : Nat
  dense : Bool
deriving DecidableEq, Repr

/-- The isDense query of an iterator handle. -/
def Iterator.isDense (i : Iterator) : Bool := i.dense

/-- Injective sort key realising the total order on iterator handles
that std::sort and std::includes use in getSubLattice. -/
def Iterator.key (i : Iterator) : Nat := 2 * i.uid + (if i.dense then 1 else 0)

/-- The total order on iterator handles. -/
def iterLE (a b : Iterator) : Prop := a.key ≤ b.key

instance : DecidableRel iterLE := fun a b => Nat.decLe a.key b.key

instance : IsTotal Iterator iterLE := ⟨fun a b => Nat.le_total a.key b.key⟩

instance : IsTrans Iterator iterLE := ⟨fun _ _ _ h1 h2 => Nat.le_trans h1 h2⟩

instance : IsAntisymm Iterator iterLE :=
  ⟨fun a b h1 h2 => by
    have h : a.key = b.key := Nat.le_antisymm h1 h2
    cases a with | mk ua da =>
    cases b with | mk ub db =>
    cases da <;> cases db <;> simp [Iterator.key] at h <;>
      first
        | (exfalso; omega)
        | (have hu : ua = ub := by omega
           simp [hu])⟩

instance : Inhabited Iterator := ⟨⟨0, false⟩⟩

/-- Index expression tree, restricted to the shapes merge_lattice.cpp
inspects: reads carry the tensor identity and the list of index
variables; immediates carry an uninterpreted payload. -/
inductive TExpr where
  | read (tensor : Nat) (indexVars : List Nat)
  | neg (a : TExpr)
  | sqrt (a : TExpr)
  | add (a b : TExpr)
  | sub (a b : TExpr)
  | mul (a b : TExpr)
  | div (a b : TExpr)
  | intImm (v : Int)
  | floatImm (v : Nat)
  | doubleImm (v : Nat)
deriving DecidableEq, Repr

/-- simplify (merge_lattice.cpp:440-458): remove the dense iterators;
if every iterator was dense, keep the first input iterator. -/
def simplify (iterators : List Iterator) : List Iterator :=
  let simplifiedIterators := iterators.filter (fun it => !it.isDense)
  if simplifiedIterators.isEmpty then iterators.take 1 else simplifiedIterators

/-- Modelled from the spec: getDenseIterators is a helper defined
outside src/ (iterators.h); per its use in the pruning rule of the spec it
returns the dense iterators of a list. -/
def getDenseIterators (l : List Iterator) : List Iterator :=
  l.filter (fun i => i.isDense)

/-- Modelled from the spec: util::contains is a helper defined outside
src/ (taco/util/collections.h); it is list membership under iterator
equality. -/
def containsIter (l : List Iterator) (x : Iterator) : Bool :=
  l.any (fun y => decide (y = x))

/-- A merge-lattice point (merge_lattice.cpp:328-355): the participating
iterators, the range iterators derived from them by simplify, the merge
iterators, and the specialised expression. -/
structure MergeLatticePoint where
  iterators : List Iterator
  rangeIterators : List Iterator
  mergeIterators : List Iterator
  expr : TExpr
deriving DecidableEq, Repr

instance : Inhabited MergeLatticePoint := ⟨⟨[], [], [], .intImm 0⟩⟩

/-- The two-argument point constructor (merge_lattice.cpp:329-332):
rangeIterators is recomputed by simplify and mergeIterators is left
empty. -/
def MergeLatticePoint.mk2 (iterators : List Iterator) (expr : TExpr) :
    MergeLatticePoint :=
  ⟨iterators, simplify iterators, [], expr⟩

/-- The three-argument point constructor (merge_lattice.cpp:334-339):
rangeIterators is recomputed by simplify and mergeIterators is stored
verbatim. -/
def MergeLatticePoint.mk3 (iterators mergeIterators : List Iterator)
    (expr : TExpr) : MergeLatticePoint :=
  ⟨iterators, simplify iterators, mergeIterators, expr⟩

/-- The assertion guarding merge (merge_lattice.cpp:371-374): the size
component compares against zero and the shape component demands a
one-element list or a list without dense iterators. -/
def mergeAssertB (l : List Iterator) : Bool :=
  decide (0 ≤ l.length) &&
    (decide (l.length = 1) || (getDenseIterators l).isEmpty)

/-- merge (merge_lattice.cpp:357-402).  The result is none when a
guarding assertion fails or when the mergeIterators element-0 access of
one of the operands is out of bounds; otherwise it is the merged point.
The final assertion of the C++ function, that the computed merge
iterator list is non-empty, is provably unreachable here because every
branch copies from a list the match has shown non-empty. -/
def merge (op : TExpr → TExpr → TExpr) (a b : MergeLatticePoint)
    (conjunctive : Bool) : Option MergeLatticePoint :=
  if mergeAssertB a.mergeIterators && mergeAssertB b.mergeIterators then
    match a.mergeIterators, b.mergeIterators with
    | a0 :: _, b0 :: _ =>
      let iters := a.iterators ++ b.iterators
      let expr := op a.expr b.expr
      let mergeIters :=
        if !a0.isDense && !b0.isDense then
          a.mergeIterators ++ b.mergeIterators
        else if a0.isDense && b0.isDense then
          a.mergeIterators
        else if conjunctive then
          (if a0.isDense then b.mergeIterators else a.mergeIterators)
        else
          (if a0.isDense then a.mergeIterators else b.mergeIterators)
      some (MergeLatticePoint.mk3 iters mergeIters expr)
    | _, _ => none
  else none

/-- Point conjunction (merge_lattice.cpp:404-407). -/
def MergeLatticePoint.conjunction (op : TExpr → TExpr → TExpr)
    (a b : MergeLatticePoint) : Option MergeLatticePoint :=
  merge op a b true

/-- Point disjunction (merge_lattice.cpp:409-412). -/
def MergeLatticePoint.disjunction (op : TExpr → TExpr → TExpr)
    (a b : MergeLatticePoint) : Option MergeLatticePoint :=
  merge op a b false

/-- A merge lattice (merge_lattice.cpp:19-24): an ordered sequence of
points; the empty sequence marks the undefined lattice. -/
structure MergeLattice where
  points : List MergeLatticePoint
deriving DecidableEq, Repr

/-- getSize (merge_lattice.cpp:188-190). -/
def MergeLattice.getSize (L : MergeLattice) : Nat := L.points.length

/-- defined (merge_lattice.cpp:227-229). -/
def MergeLattice.defined (L : MergeLattice) : Bool :=
  decide (0 < L.points.length)

/-- getIterators (merge_lattice.cpp:196-200): the iterators of the first
point.  The C++ asserts non-emptiness; on the undefined lattice the
model returns the empty list. -/
def MergeLattice.getIterators (L : MergeLattice) : List Iterator :=
  match L.points with
  | [] => []
  | p :: _ => p.iterators

/-- getExpr (merge_lattice.cpp:202-208): the expression of the first
point. -/
def MergeLattice.getExpr (L : MergeLattice) : Option TExpr :=
  match L.points with
  | [] => none
  | p :: _ => some p.expr

/-- Option-valued map over a list, failing as soon as the function
fails; this renders a C++ loop whose body can abort. -/
def mapOpt (f : α → Option β) : List α → Option (List β)
  | [] => some []
  | x :: xs =>
    match f x, mapOpt f xs with
    | some y, some ys => some (y :: ys)
    | _, _ => none

/-- All pairs of points in the nested-loop order of the C++ lattice
combinators: the first list is the outer loop. -/
def pairPoints (A B : List MergeLatticePoint) :
    List (MergeLatticePoint × MergeLatticePoint) :=
  match A with
  | [] => []
  | a :: as => B.map (fun b => (a, b)) ++ pairPoints as B

/-- Lattice conjunction (merge_lattice.cpp:249-261): every pairwise
point conjunction, a outer and b inner. -/
def MergeLattice.conjunction (op : TExpr → TExpr → TExpr)
    (A B : MergeLattice) : Option MergeLattice :=
  match mapOpt (fun ab => merge op ab.1 ab.2 true)
      (pairPoints A.points B.points) with
  | some pts => some ⟨pts⟩
  | none => none

/-- Lattice disjunction (merge_lattice.cpp:263-305): the pairwise point
disjunctions followed by the points of a and the points of b, pruned of
every point missing a dense iterator of the first point.  The result is
none when a pairwise merge fails, or when one of the two assertions
fires: all points empty, or the pruned lattice empty. -/
def MergeLattice.disjunction (op : TExpr → TExpr → TExpr)
    (A B : MergeLattice) : Option MergeLattice :=
  match mapOpt (fun ab => merge op ab.1 ab.2 false)
      (pairPoints A.points B.points) with
  | none => none
  | some pairwise =>
    match pairwise ++ A.points ++ B.points with
    | [] => none
    | h :: t =>
      if ((h :: t).filter
          (fun point => (getDenseIterators h.iterators).all
            (fun d => containsIter point.iterators d))).isEmpty
      then none
      else some ⟨(h :: t).filter
          (fun point => (getDenseIterators h.iterators).all
            (fun d => containsIter point.iterators d))⟩

/-- scale (merge_lattice.cpp:26-48): each point keeps its iterators and
merge iterators and its expression is combined with the scalar
expression on the given side. -/
def MergeLattice.scale (op : TExpr → TExpr → TExpr) (L : MergeLattice)
    (s : TExpr) (leftScale : Bool) : MergeLattice :=
  ⟨L.points.map (fun point =>
    MergeLatticePoint.mk3 point.iterators point.mergeIterators
      (if leftScale then op s point.expr else op point.expr s))⟩

/-- unary (merge_lattice.cpp:50-59): each point keeps its iterators and
merge iterators and its expression is wrapped by the operator. -/
def MergeLattice.unary (op : TExpr → TExpr) (L : MergeLattice) :
    MergeLattice :=
  ⟨L.points.map (fun point =>
    MergeLatticePoint.mk3 point.iterators point.mergeIterators
      (op point.expr))⟩

/-- The recursive builder BuildMergeLattice (merge_lattice.cpp:61-186).
Modelled from the spec: the iteration schedule and the iterator registry
live outside src/ (iteration_schedule.h, iterators.h); for a fixed
target index variable their composition assigns one iterator handle to
each tensor read, abstracted here as the function sched from the tensor
identity to the handle.  The empty lattice is the undefined marker for
a sub-expression that does not involve the target variable; none models
the taco_not_supported_yet abort on immediate nodes and any abort
inside the lattice combinators. -/
def buildLattice (sched : Nat → Iterator) (indexVar : Nat) :
    TExpr → Option MergeLattice
  | .read tensor indexVars =>
    if indexVar ∈ indexVars then
      some ⟨[MergeLatticePoint.mk3 [sched tensor] [sched tensor]
        (.read tensor indexVars)]⟩
    else
      some ⟨[]⟩
  | .neg a =>
    match buildLattice sched indexVar a with
    | some la => some (MergeLattice.unary .neg la)
    | none => none
  | .sqrt a =>
    match buildLattice sched indexVar a with
    | some la => some (MergeLattice.unary .sqrt la)
    | none => none
  | .add a b =>
    match buildLattice sched indexVar a, buildLattice sched indexVar b with
    | some la, some lb =>
      if la.defined && lb.defined then MergeLattice.disjunction .add la lb
      else if la.defined then some (MergeLattice.scale .add la b false)
      else if lb.defined then some (MergeLattice.scale .add lb a true)
      else some ⟨[]⟩
    | _, _ => none
  | .sub a b =>
    match buildLattice sched indexVar a, buildLattice sched indexVar b with
    | some la, some lb =>
      if la.defined && lb.defined then MergeLattice.disjunction .sub la lb
      else if la.defined then some (MergeLattice.scale .sub la b false)
      else if lb.defined then some (MergeLattice.scale .sub lb a true)
      else some ⟨[]⟩
    | _, _ => none
  | .mul a b =>
    match buildLattice sched indexVar a, buildLattice sched indexVar b with
    | some la, some lb =>
      if la.defined && lb.defined then MergeLattice.conjunction .mul la lb
      else if la.defined then some (MergeLattice.scale .mul la b false)
      else if lb.defined then some (MergeLattice.scale .mul lb a true)
      else some ⟨[]⟩
    | _, _ => none
  | .div a b =>
    match buildLattice sched indexVar a, buildLattice sched indexVar b with
    | some la, some lb =>
      if la.defined && lb.defined then MergeLattice.conjunction .div la lb
      else if la.defined then some (MergeLattice.scale .div la b false)
      else if lb.defined then some (MergeLattice.scale .div lb a true)
      else some ⟨[]⟩
    | _, _ => none
  | .intImm _ => none
  | .floatImm _ => none
  | .doubleImm _ => none

/-- Sorting by the iterator total order, as std::sort does in
getSubLattice (merge_lattice.cpp:215,218). -/
def sortIters (l : List Iterator) : List Iterator :=
  List.insertionSort iterLE l

/-- The std::includes scan of getSubLattice (merge_lattice.cpp:219-220)
over two sorted ranges: the first argument is the containing range. -/
def includesSorted : List Iterator → List Iterator → Bool
  | _, [] => true
  | [], _ :: _ => false
  | x :: xs, y :: ys =>
    if y.key < x.key then false
    else if x.key < y.key then includesSorted xs (y :: ys)
    else includesSorted xs ys

/-- getSubLattice (merge_lattice.cpp:210-225): keep, in order, the
points whose sorted iterator list is included in the sorted iterator
list of the given point. -/
def MergeLattice.getSubLattice (L : MergeLattice)
    (lp : MergeLatticePoint) : MergeLattice :=
  ⟨L.points.filter (fun lq =>
    includesSorted (sortIters lp.iterators) (sortIters lq.iterators))⟩

/-- The mergeIterators invariant of the spec: a single dense iterator,
or one or more sparse iterators, never a mix.  A one-element list
always qualifies; a longer list qualifies exactly when it is all
sparse. -/
def singleDenseOrAllSparse (l : List Iterator) : Bool :=
  !l.isEmpty && (decide (l.length = 1) || l.all (fun i => !i.isDense))

/-- The disjunction-pruning invariant of the spec, stated on a lattice:
every dense iterator of the first point appears in the iterator list of
every point. -/
def denseTopInvariant (L : MergeLattice) : Bool :=
  L.points.all (fun p =>
    (L.getIterators.filter (fun d => d.isDense)).all
      (fun d => decide (d ∈ p.iterators)))

/-- Every point of the lattice satisfies the mergeIterators invariant. -/
def latticeSDOS (L : MergeLattice) : Prop :=
  ∀ p ∈ L.points, singleDenseOrAllSparse p.mergeIterators = true

/-- Propositional form of the disjunction-pruning invariant: every dense
iterator of the first point belongs to every point. -/
def denseTopProp (L : MergeLattice) : Prop :=
  ∀ p ∈ L.points, ∀ d : Iterator, d.isDense = true →
    d ∈ L.getIterators → d ∈ p.iterators

/-- Does the expression contain an immediate numeric node? -/
def hasImm : TExpr → Bool
  | .read _ _ => false
  | .neg a => hasImm a
  | .sqrt a => hasImm a
  | .add a b => hasImm a || hasImm b
  | .sub a b => hasImm a || hasImm b
  | .mul a b => hasImm a || hasImm b
  | .div a b => hasImm a || hasImm b
  | .intImm _ => true
  | .floatImm _ => true
  | .doubleImm _ => true

/-- Sparse iterator of tensor A over the scenario index variable. -/
def sA : Iterator := ⟨0, false⟩

/-- Dense iterator of tensor D over the scenario index variable. -/
def dD : Iterator := ⟨1, true⟩

/-- Scenario schedule: tensor 0 is the sparse A, tensor 1 the dense D. -/
def exSched : Nat → Iterator := fun t => if t = 0 then sA else dD

/-- Scenario expression A(i) + D(i). -/
def exExpr : TExpr := .add (.read 0 [0]) (.read 1 [0])

/-- Scenario lattice point for the sparse read A(i). -/
def pA : MergeLatticePoint := MergeLatticePoint.mk3 [sA] [sA] (.read 0 [0])

/-- Scenario lattice point for the dense read D(i). -/
def pD : MergeLatticePoint := MergeLatticePoint.mk3 [dD] [dD] (.read 1 [0])


theorem containsIter_iff (l : List Iterator) (x : Iterator) :
    containsIter l x = true ↔ x ∈ l := by
  simp [containsIter]

theorem mergeAssert_of_inv {l : List Iterator}
    (h : singleDenseOrAllSparse l = true) : mergeAssertB l = true := by
  simp [singleDenseOrAllSparse] at h
  simp [mergeAssertB, getDenseIterators]
  rcases h.2 with h1 | h1
  · exact Or.inl h1
  · exact Or.inr h1

theorem simplify_all_dense {l : List Iterator}
    (h : l.all (fun i => i.isDense) = true) : simplify l = l.take 1 := by
  have hf : l.filter (fun it => !it.isDense) = [] := by
    simp only [List.filter_eq_nil_iff]
    intro a hal
    simp only [List.all_eq_true] at h
    simp [h a hal]
  simp [simplify, hf]

theorem simplify_not_all_dense {l : List Iterator}
    (h : ¬ l.all (fun i => i.isDense) = true) :
    simplify l = l.filter (fun it => !it.isDense) := by
  have hf : ¬ l.filter (fun it => !it.isDense) = [] := by
    simp only [List.filter_eq_nil_iff]
    intro hc
    apply h
    simp only [List.all_eq_true]
    intro a hal
    have := hc a hal
    simp at this
    exact this
  simp [simplify, List.isEmpty_iff, hf]

/-- C8: on a non-empty input, simplify returns the sparse iterators in
input order, or the one-element list holding the first iterator when
every input iterator is dense; it therefore never returns the empty
list, and it is idempotent. -/
theorem simplify_keeps_sparse_idempotent (x0 : Iterator) (xs : List Iterator) :
    (simplify (x0 :: xs) =
      if (x0 :: xs).all (fun i => i.isDense) then [x0]
      else (x0 :: xs).filter (fun i => !i.isDense))
    ∧ simplify (x0 :: xs) ≠ []
    ∧ simplify (simplify (x0 :: xs)) = simplify (x0 :: xs) := by
  by_cases h : (x0 :: xs).all (fun i => i.isDense) = true
  · have h0 : x0.isDense = true := by
      simp only [List.all_eq_true] at h
      exact h x0 (List.mem_cons_self x0 xs)
    have hs : simplify (x0 :: xs) = [x0] := by
      rw [simplify_all_dense h]; rfl
    refine ⟨by rw [hs, if_pos h], by rw [hs]; simp, ?_⟩
    rw [hs, simplify_all_dense (by simp [h0])]
    rfl
  · have hs : simplify (x0 :: xs) = (x0 :: xs).filter (fun it => !it.isDense) :=
      simplify_not_all_dense h
    have hmem : ∀ a ∈ simplify (x0 :: xs), a.isDense = false := by
      rw [hs]
      intro a ha
      have := List.of_mem_filter ha
      simpa using this
    have hne : simplify (x0 :: xs) ≠ [] := by
      rw [hs]
      simp only [ne_eq, List.filter_eq_nil_iff]
      intro hc
      apply h
      simp only [List.all_eq_true]
      intro a hal
      have := hc a hal
      simpa using this
    refine ⟨by rw [hs, if_neg h], hne, ?_⟩
    have hns : ¬ (simplify (x0 :: xs)).all (fun i => i.isDense) = true := by
      intro hc
      rcases List.exists_mem_of_ne_nil (simplify (x0 :: xs)) hne with ⟨a, hha⟩
      have h1 := (List.all_eq_true.mp hc) a hha
      have h2 := hmem a hha
      rw [h2] at h1
      exact Bool.false_ne_true h1
    rw [simplify_not_all_dense hns]
    rw [List.filter_eq_self]
    intro a ha
    simp [hmem a ha]

/-- C3: the lattice for A(i)+D(i), A sparse and D dense, has exactly the
top point with iterators [S(A), D(D)], merge iterators [D(D)] and the
Add expression, followed by the point [D(D)] with the read of D; the
standalone [S(A)] point is pruned away. -/
theorem build_sparse_plus_dense :
    buildLattice exSched 0 exExpr =
      some ⟨[⟨[sA, dD], [sA], [dD], .add (.read 0 [0]) (.read 1 [0])⟩,
             ⟨[dD], [dD], [dD], .read 1 [0]⟩]⟩ := by
  decide

/-- C9: an immediate numeric node anywhere in the expression makes the
builder signal the hard not-supported failure instead of producing a
lattice. -/
theorem buildLattice_rejects_imm (sched : Nat → Iterator) (indexVar : Nat)
    (e : TExpr) (h : hasImm e = true) :
    buildLattice sched indexVar e = none := by
  induction e with
  | read t ivs => simp [hasImm] at h
  | neg a ih =>
    simp only [hasImm] at h
    simp [buildLattice, ih h]
  | sqrt a ih =>
    simp only [hasImm] at h
    simp [buildLattice, ih h]
  | add a b iha ihb =>
    simp only [hasImm, Bool.or_eq_true] at h
    rcases h with h | h
    · simp [buildLattice, iha h]
    · cases hb : buildLattice sched indexVar a <;> simp [buildLattice, hb, ihb h]
  | sub a b iha ihb =>
    simp only [hasImm, Bool.or_eq_true] at h
    rcases h with h | h
    · simp [buildLattice, iha h]
    · cases hb : buildLattice sched indexVar a <;> simp [buildLattice, hb, ihb h]
  | mul a b iha ihb =>
    simp only [hasImm, Bool.or_eq_true] at h
    rcases h with h | h
    · simp [buildLattice, iha h]
    · cases hb : buildLattice sched indexVar a <;> simp [buildLattice, hb, ihb h]
  | div a b iha ihb =>
    simp only [hasImm, Bool.or_eq_true] at h
    rcases h with h | h
    · simp [buildLattice, iha h]
    · cases hb : buildLattice sched indexVar a <;> simp [buildLattice, hb, ihb h]
  | intImm v => rfl
  | floatImm v => rfl
  | doubleImm v => rfl

theorem buildLattice_rejects_imm_witness :
    buildLattice exSched 0 (.add (.read 0 [0]) (.intImm 3)) = none :=
  buildLattice_rejects_imm exSched 0 (.add (.read 0 [0]) (.intImm 3)) rfl

theorem merge_none_of_empty (op : TExpr → TExpr → TExpr)
    (a b : MergeLatticePoint) (c : Bool)
    (h : a.mergeIterators = [] ∨ b.mergeIterators = []) :
    merge op a b c = none := by
  unfold merge
  rcases h with h | h
  · rw [h]
    split
    · cases b.mergeIterators <;> rfl
    · rfl
  · rw [h]
    split
    · cases a.mergeIterators <;> rfl
    · rfl

theorem merge_isSome_of_assert (op : TExpr → TExpr → TExpr)
    (a b : MergeLatticePoint) (c : Bool)
    (h1 : mergeAssertB a.mergeIterators = true)
    (h2 : mergeAssertB b.mergeIterators = true)
    (h3 : a.mergeIterators ≠ []) (h4 : b.mergeIterators ≠ []) :
    (merge op a b c).isSome = true := by
  unfold merge
  rw [h1, h2]
  simp only [Bool.and_self, if_true]
  cases ha2 : a.mergeIterators with
  | nil => exact absurd ha2 h3
  | cons a0 as =>
    cases hb2 : b.mergeIterators with
    | nil => exact absurd hb2 h4
    | cons b0 bs => rfl

/-- C10: merge reads element 0 of both mergeIterators lists.  The
guarding assertion reduces to its shape component, since the size
component compares against zero and never rejects; in particular the
empty list passes the assertion, a point built by the two-argument
constructor carries the empty mergeIterators list and makes merge fail
on the element-0 access, and merge succeeds whenever the assertions
pass and both lists are non-empty. -/
theorem merge_element_zero_safety :
    (∀ l : List Iterator,
      mergeAssertB l = (decide (l.length = 1) || (getDenseIterators l).isEmpty))
    ∧ mergeAssertB [] = true
    ∧ (∀ (iterators : List Iterator) (e : TExpr),
        (MergeLatticePoint.mk2 iterators e).mergeIterators = [])
    ∧ (∀ (op : TExpr → TExpr → TExpr) (a b : MergeLatticePoint) (c : Bool),
        a.mergeIterators = [] ∨ b.mergeIterators = [] → merge op a b c = none)
    ∧ (∀ (op : TExpr → TExpr → TExpr) (a b : MergeLatticePoint) (c : Bool),
        mergeAssertB a.mergeIterators = true →
        mergeAssertB b.mergeIterators = true →
        a.mergeIterators ≠ [] → b.mergeIterators ≠ [] →
        (merge op a b c).isSome = true) := by
  refine ⟨?_, ?_, ?_, ?_, ?_⟩
  · intro l
    simp [mergeAssertB]
  · rfl
  · intro iterators e
    rfl
  · exact merge_none_of_empty
  · exact merge_isSome_of_assert

theorem merge_element_zero_safety_witness :
    merge TExpr.add (MergeLatticePoint.mk2 [sA] (.read 0 [0]))
      (MergeLatticePoint.mk2 [dD] (.read 1 [0])) true = none :=
  merge_element_zero_safety.2.2.2.1 TExpr.add
    (MergeLatticePoint.mk2 [sA] (.read 0 [0]))
    (MergeLatticePoint.mk2 [dD] (.read 1 [0])) true (Or.inl rfl)

/-- C1: for points whose mergeIterators lists satisfy the
single-dense-or-all-sparse invariant, merge returns a point whose
iterator list is the concatenation of the operand iterator lists, whose
expression is the operator applied to the operand expressions, and
whose mergeIterators follow the table: both heads sparse gives the
concatenation, both heads dense gives the left list, exactly one dense
gives the sparse side under a conjunctive operator and the dense side
under a disjunctive one. -/
theorem merge_point_table (op : TExpr → TExpr → TExpr)
    (a b : MergeLatticePoint) (conjunctive : Bool)
    (a0 b0 : Iterator) (aR bR : List Iterator)
    (ha : a.mergeIterators = a0 :: aR) (hb : b.mergeIterators = b0 :: bR)
    (hia : singleDenseOrAllSparse a.mergeIterators = true)
    (hib : singleDenseOrAllSparse b.mergeIterators = true) :
    (merge op a b conjunctive).map MergeLatticePoint.iterators
        = some (a.iterators ++ b.iterators)
    ∧ (merge op a b conjunctive).map MergeLatticePoint.expr
        = some (op a.expr b.expr)
    ∧ (a0.isDense = false → b0.isDense = false →
        (merge op a b conjunctive).map MergeLatticePoint.mergeIterators
          = some (a.mergeIterators ++ b.mergeIterators))
    ∧ (a0.isDense = true → b0.isDense = true →
        (merge op a b conjunctive).map MergeLatticePoint.mergeIterators
          = some a.mergeIterators)
    ∧ (a0.isDense = true → b0.isDense = false → conjunctive = true →
        (merge op a b conjunctive).map MergeLatticePoint.mergeIterators
          = some b.mergeIterators)
    ∧ (a0.isDense = false → b0.isDense = true → conjunctive = true →
        (merge op a b conjunctive).map MergeLatticePoint.mergeIterators
          = some a.mergeIterators)
    ∧ (a0.isDense = true → b0.isDense = false → conjunctive = false →
        (merge op a b conjunctive).map MergeLatticePoint.mergeIterators
          = some a.mergeIterators)
    ∧ (a0.isDense = false → b0.isDense = true → conjunctive = false →
        (merge op a b conjunctive).map MergeLatticePoint.mergeIterators
          = some b.mergeIterators) := by
  have h1 := mergeAssert_of_inv hia
  have h2 := mergeAssert_of_inv hib
  have hsome : merge op a b conjunctive = some (MergeLatticePoint.mk3
      (a.iterators ++ b.iterators)
      (if !a0.isDense && !b0.isDense then a.mergeIterators ++ b.mergeIterators
       else if a0.isDense && b0.isDense then a.mergeIterators
       else if conjunctive then
         (if a0.isDense then b.mergeIterators else a.mergeIterators)
       else
         (if a0.isDense then a.mergeIterators else b.mergeIterators))
      (op a.expr b.expr)) := by
    unfold merge
    rw [h1, h2]
    simp only [Bool.and_self, if_true]
    rw [ha, hb]
  rw [hsome]
  cases hda : a0.isDense <;> cases hdb : b0.isDense <;> cases conjunctive <;>
    simp [MergeLatticePoint.mk3, hda, hdb]

theorem merge_point_table_witness :
    ((merge TExpr.mul pA pD true).map MergeLatticePoint.iterators
        = some (pA.iterators ++ pD.iterators))
    ∧ ((merge TExpr.mul pA pD true).map MergeLatticePoint.expr
        = some (TExpr.mul pA.expr pD.expr))
    ∧ (sA.isDense = false → dD.isDense = false →
        (merge TExpr.mul pA pD true).map MergeLatticePoint.mergeIterators
          = some (pA.mergeIterators ++ pD.mergeIterators))
    ∧ (sA.isDense = true → dD.isDense = true →
        (merge TExpr.mul pA pD true).map MergeLatticePoint.mergeIterators
          = some pA.mergeIterators)
    ∧ (sA.isDense = true → dD.isDense = false → true = true →
        (merge TExpr.mul pA pD true).map MergeLatticePoint.mergeIterators
          = some pD.mergeIterators)
    ∧ (sA.isDense = false → dD.isDense = true → true = true →
        (merge TExpr.mul pA pD true).map MergeLatticePoint.mergeIterators
          = some pA.mergeIterators)
    ∧ (sA.isDense = true → dD.isDense = false → true = false →
        (merge TExpr.mul pA pD true).map MergeLatticePoint.mergeIterators
          = some pA.mergeIterators)
    ∧ (sA.isDense = false → dD.isDense = true → true = false →
        (merge TExpr.mul pA pD true).map MergeLatticePoint.mergeIterators
          = some pD.mergeIterators) :=
  merge_point_table TExpr.mul pA pD true sA dD [] [] rfl rfl
    (by decide) (by decide)

theorem mapOpt_cons_some {f : α → Option β} {x : α} {xs : List α}
    {ys : List β} (h : mapOpt f (x :: xs) = some ys) :
    ∃ y ys2, f x = some y ∧ mapOpt f xs = some ys2 ∧ ys = y :: ys2 := by
  unfold mapOpt at h
  cases hfx : f x with
  | none =>
    rw [hfx] at h
    cases hxs : mapOpt f xs <;> rw [hxs] at h <;> cases h
  | some y =>
    cases hxs : mapOpt f xs with
    | none => rw [hfx, hxs] at h; cases h
    | some ys2 =>
      rw [hfx, hxs] at h
      exact ⟨y, ys2, rfl, rfl, (Option.some.inj h).symm⟩

theorem mapOpt_length {f : α → Option β} :
    ∀ {l : List α} {ys : List β}, mapOpt f l = some ys → ys.length = l.length := by
  intro l
  induction l with
  | nil => intro ys h; cases h; rfl
  | cons x xs ih =>
    intro ys h
    rcases mapOpt_cons_some h with ⟨y, ys2, _, h2, h3⟩
    subst h3
    simp [ih h2]

theorem mapOpt_mem {f : α → Option β} :
    ∀ {l : List α} {ys : List β} {y : β}, mapOpt f l = some ys → y ∈ ys →
      ∃ x, x ∈ l ∧ f x = some y := by
  intro l
  induction l with
  | nil => intro ys y h hy; cases h; cases hy
  | cons x xs ih =>
    intro ys y h hy
    rcases mapOpt_cons_some h with ⟨y2, ys2, h1, h2, h3⟩
    subst h3
    rcases List.mem_cons.mp hy with rfl | hy2
    · exact ⟨x, List.mem_cons_self x xs, h1⟩
    · rcases ih h2 hy2 with ⟨x2, hx2, hfx2⟩
      exact ⟨x2, List.mem_cons_of_mem x hx2, hfx2⟩

theorem mapOpt_isSome {f : α → Option β} :
    ∀ {l : List α}, (∀ x ∈ l, (f x).isSome = true) →
      (mapOpt f l).isSome = true := by
  intro l
  induction l with
  | nil => intro; rfl
  | cons x xs ih =>
    intro h
    have hx := h x (List.mem_cons_self x xs)
    have hxs := ih (fun z hz => h z (List.mem_cons_of_mem x hz))
    rcases Option.isSome_iff_exists.mp hx with ⟨y, hy⟩
    rcases Option.isSome_iff_exists.mp hxs with ⟨ys, hys⟩
    unfold mapOpt
    rw [hy, hys]
    rfl

theorem pairPoints_length :
    ∀ (A B : List MergeLatticePoint),
      (pairPoints A B).length = A.length * B.length := by
  intro A B
  induction A with
  | nil => simp [pairPoints]
  | cons a as ih =>
    simp [pairPoints, ih, Nat.succ_mul, Nat.add_comm]

theorem pairPoints_mem :
    ∀ {A B : List MergeLatticePoint}
      {ab : MergeLatticePoint × MergeLatticePoint},
      ab ∈ pairPoints A B → ab.1 ∈ A ∧ ab.2 ∈ B := by
  intro A
  induction A with
  | nil => intro B ab h; cases h
  | cons a as ih =>
    intro B ab h
    unfold pairPoints at h
    rcases List.mem_append.mp h with h1 | h1
    · rcases List.mem_map.mp h1 with ⟨b, hb, he⟩
      subst he
      exact ⟨List.mem_cons_self a as, hb⟩
    · rcases ih h1 with ⟨ha, hb⟩
      exact ⟨List.mem_cons_of_mem a ha, hb⟩

theorem merge_eq_of_cons (op : TExpr → TExpr → TExpr)
    (a b : MergeLatticePoint) (c : Bool) {a0 b0 : Iterator}
    {as bs : List Iterator}
    (ha : a.mergeIterators = a0 :: as) (hb : b.mergeIterators = b0 :: bs)
    (h1 : mergeAssertB a.mergeIterators = true)
    (h2 : mergeAssertB b.mergeIterators = true) :
    merge op a b c = some (MergeLatticePoint.mk3
      (a.iterators ++ b.iterators)
      (if !a0.isDense && !b0.isDense then
        a.mergeIterators ++ b.mergeIterators
       else if a0.isDense && b0.isDense then a.mergeIterators
       else if c then
         (if a0.isDense then b.mergeIterators else a.mergeIterators)
       else
         (if a0.isDense then a.mergeIterators else b.mergeIterators))
      (op a.expr b.expr)) := by
  unfold merge
  rw [h1, h2]
  simp only [Bool.and_self, if_true]
  rw [ha, hb]

theorem merge_some_shapes {op : TExpr → TExpr → TExpr}
    {a b : MergeLatticePoint} {c : Bool} {p : MergeLatticePoint}
    (h : merge op a b c = some p) :
    a.mergeIterators ≠ [] ∧ b.mergeIterators ≠ []
    ∧ mergeAssertB a.mergeIterators = true
    ∧ mergeAssertB b.mergeIterators = true := by
  have hna : a.mergeIterators ≠ [] := by
    intro hnil
    rw [merge_none_of_empty op a b c (Or.inl hnil)] at h
    cases h
  have hnb : b.mergeIterators ≠ [] := by
    intro hnil
    rw [merge_none_of_empty op a b c (Or.inr hnil)] at h
    cases h
  have hc : (mergeAssertB a.mergeIterators
      && mergeAssertB b.mergeIterators) = true := by
    by_contra hcn
    unfold merge at h
    rw [if_neg hcn] at h
    cases h
  exact ⟨hna, hnb, (Bool.and_eq_true _ _).mp hc |>.1,
    (Bool.and_eq_true _ _).mp hc |>.2⟩

theorem merge_some_fields {op : TExpr → TExpr → TExpr}
    {a b : MergeLatticePoint} {c : Bool} {p : MergeLatticePoint}
    (h : merge op a b c = some p) :
    p.iterators = a.iterators ++ b.iterators
    ∧ p.expr = op a.expr b.expr
    ∧ (p.mergeIterators = a.mergeIterators ++ b.mergeIterators
       ∨ p.mergeIterators = a.mergeIterators
       ∨ p.mergeIterators = b.mergeIterators) := by
  rcases merge_some_shapes h with ⟨hna, hnb, hc1, hc2⟩
  rcases List.exists_cons_of_ne_nil hna with ⟨a0, as, ha⟩
  rcases List.exists_cons_of_ne_nil hnb with ⟨b0, bs, hb⟩
  rw [merge_eq_of_cons op a b c ha hb hc1 hc2] at h
  have hp := Option.some.inj h
  subst hp
  refine ⟨rfl, rfl, ?_⟩
  simp only [MergeLatticePoint.mk3]
  split_ifs <;> simp

theorem SDOS_ne_nil {l : List Iterator}
    (h : singleDenseOrAllSparse l = true) : l ≠ [] := by
  simp [singleDenseOrAllSparse] at h
  exact h.1

theorem SDOS_all_sparse {l0 : Iterator} {ls : List Iterator}
    (h : singleDenseOrAllSparse (l0 :: ls) = true)
    (h0 : l0.isDense = false) :
    ∀ i ∈ l0 :: ls, i.isDense = false := by
  simp only [singleDenseOrAllSparse, Bool.and_eq_true, Bool.or_eq_true,
    decide_eq_true_eq, List.all_eq_true] at h
  rcases h.2 with h1 | h1
  · have hls : ls = [] := by
      cases ls with
      | nil => rfl
      | cons x xs => simp at h1
    subst hls
    intro i hi
    rcases List.mem_singleton.mp hi with rfl
    exact h0
  · intro i hi
    have := h1 i hi
    simpa using this

theorem SDOS_append {la lb : List Iterator} {a0 b0 : Iterator}
    {as bs : List Iterator}
    (ha : la = a0 :: as) (hb : lb = b0 :: bs)
    (hia : singleDenseOrAllSparse la = true)
    (hib : singleDenseOrAllSparse lb = true)
    (hda : a0.isDense = false) (hdb : b0.isDense = false) :
    singleDenseOrAllSparse (la ++ lb) = true := by
  subst ha
  subst hb
  have hal := SDOS_all_sparse hia hda
  have hbl := SDOS_all_sparse hib hdb
  simp only [singleDenseOrAllSparse, Bool.and_eq_true, Bool.or_eq_true,
    decide_eq_true_eq, List.all_eq_true]
  refine ⟨by simp, Or.inr ?_⟩
  intro i hi
  rcases List.mem_append.mp hi with hi1 | hi1
  · simp [hal i hi1]
  · simp [hbl i hi1]

theorem SDOS_merge {op : TExpr → TExpr → TExpr}
    {a b : MergeLatticePoint} {c : Bool} {p : MergeLatticePoint}
    (hia : singleDenseOrAllSparse a.mergeIterators = true)
    (hib : singleDenseOrAllSparse b.mergeIterators = true)
    (h : merge op a b c = some p) :
    singleDenseOrAllSparse p.mergeIterators = true := by
  rcases merge_some_shapes h with ⟨hna, hnb, hc1, hc2⟩
  rcases List.exists_cons_of_ne_nil hna with ⟨a0, as, ha⟩
  rcases List.exists_cons_of_ne_nil hnb with ⟨b0, bs, hb⟩
  rw [merge_eq_of_cons op a b c ha hb hc1 hc2] at h
  have hp := Option.some.inj h
  subst hp
  simp only [MergeLatticePoint.mk3]
  cases hda : a0.isDense <;> cases hdb : b0.isDense <;> cases c <;>
    simp only [hda, hdb, Bool.not_false, Bool.not_true, Bool.and_self,
      Bool.and_false, Bool.false_and, Bool.true_and, Bool.and_true,
      if_true, if_false, ite_true, ite_false, Bool.false_eq_true] <;>
    first
      | exact hia
      | exact hib
      | exact SDOS_append ha hb hia hib hda hdb

theorem merge_isSome_of_inv (op : TExpr → TExpr → TExpr)
    (a b : MergeLatticePoint) (c : Bool)
    (hia : singleDenseOrAllSparse a.mergeIterators = true)
    (hib : singleDenseOrAllSparse b.mergeIterators = true) :
    (merge op a b c).isSome = true :=
  merge_isSome_of_assert op a b c (mergeAssert_of_inv hia)
    (mergeAssert_of_inv hib) (SDOS_ne_nil hia) (SDOS_ne_nil hib)

theorem conjunction_mapOpt_isSome (op : TExpr → TExpr → TExpr)
    {A B : MergeLattice} (c : Bool)
    (hwa : ∀ p ∈ A.points, singleDenseOrAllSparse p.mergeIterators = true)
    (hwb : ∀ p ∈ B.points, singleDenseOrAllSparse p.mergeIterators = true) :
    (mapOpt (fun ab => merge op ab.1 ab.2 c)
      (pairPoints A.points B.points)).isSome = true := by
  apply mapOpt_isSome
  intro ab hab
  rcases pairPoints_mem hab with ⟨h1, h2⟩
  exact merge_isSome_of_inv op ab.1 ab.2 c (hwa ab.1 h1) (hwb ab.2 h2)

/-- C7: lattice conjunction of non-empty well-formed lattices succeeds,
its points are the pairwise point conjunctions in the order with the
first lattice outer and the second inner, and both orders of the
operands give exactly the product of the sizes. -/
theorem conjunction_shape (op : TExpr → TExpr → TExpr) (A B : MergeLattice)
    (hA : A.points ≠ []) (hB : B.points ≠ [])
    (hwa : ∀ p ∈ A.points, singleDenseOrAllSparse p.mergeIterators = true)
    (hwb : ∀ p ∈ B.points, singleDenseOrAllSparse p.mergeIterators = true) :
    (MergeLattice.conjunction op A B).map MergeLattice.getSize
        = some (A.getSize * B.getSize)
    ∧ (MergeLattice.conjunction op B A).map MergeLattice.getSize
        = some (A.getSize * B.getSize)
    ∧ (MergeLattice.conjunction op A B).map MergeLattice.points
        = mapOpt (fun ab => merge op ab.1 ab.2 true)
            (pairPoints A.points B.points) := by
  rcases Option.isSome_iff_exists.mp
    (conjunction_mapOpt_isSome op true hwa hwb) with ⟨ptsAB, hAB⟩
  rcases Option.isSome_iff_exists.mp
    (conjunction_mapOpt_isSome op true hwb hwa) with ⟨ptsBA, hBA⟩
  have hlAB : ptsAB.length = A.points.length * B.points.length := by
    rw [mapOpt_length hAB, pairPoints_length]
  have hlBA : ptsBA.length = A.points.length * B.points.length := by
    rw [mapOpt_length hBA, pairPoints_length, Nat.mul_comm]
  unfold MergeLattice.conjunction
  rw [hAB, hBA]
  exact ⟨by simp [MergeLattice.getSize, hlAB],
    by simp [MergeLattice.getSize, hlBA], by simp⟩

theorem filter_dense_head (h0 : MergeLatticePoint)
    (rest : List MergeLatticePoint) :
    (h0 :: rest).filter
        (fun point => (getDenseIterators h0.iterators).all
          (fun d => containsIter point.iterators d))
      = h0 :: rest.filter
        (fun point => (getDenseIterators h0.iterators).all
          (fun d => containsIter point.iterators d)) := by
  rw [List.filter_cons_of_pos]
  apply List.all_eq_true.mpr
  intro d hd
  exact (containsIter_iff _ _).mpr (List.mem_of_mem_filter hd)

theorem disjunction_eq_of_pairwise {op : TExpr → TExpr → TExpr}
    {A B : MergeLattice} {p0 : MergeLatticePoint}
    {pw : List MergeLatticePoint}
    (hm : mapOpt (fun ab => merge op ab.1 ab.2 false)
        (pairPoints A.points B.points) = some (p0 :: pw)) :
    MergeLattice.disjunction op A B
      = some ⟨p0 :: (pw ++ A.points ++ B.points).filter
          (fun point => (getDenseIterators p0.iterators).all
            (fun d => containsIter point.iterators d))⟩ := by
  unfold MergeLattice.disjunction
  rw [hm]
  simp only [List.cons_append]
  rw [filter_dense_head]
  simp [List.append_assoc]

theorem pairPoints_cons (a : MergeLatticePoint) (as : List MergeLatticePoint)
    (b : MergeLatticePoint) (bs : List MergeLatticePoint) :
    pairPoints (a :: as) (b :: bs)
      = (a, b) :: (bs.map (fun b2 => (a, b2)) ++ pairPoints as (b :: bs)) := rfl

/-- C5: the disjunction of two defined lattices whose points satisfy the
mergeIterators invariant is defined and non-empty, and its top point,
the pairwise combination of the two top points, carries the
concatenation of their iterator lists; hence the non-emptiness
assertion of disjunction never fires. -/
theorem disjunction_defined (op : TExpr → TExpr → TExpr) (A B : MergeLattice)
    (hA : A.points ≠ []) (hB : B.points ≠ [])
    (hwa : ∀ p ∈ A.points, singleDenseOrAllSparse p.mergeIterators = true)
    (hwb : ∀ p ∈ B.points, singleDenseOrAllSparse p.mergeIterators = true) :
    (MergeLattice.disjunction op A B).map (fun C => C.points.isEmpty)
        = some false
    ∧ (MergeLattice.disjunction op A B).map MergeLattice.getIterators
        = some (A.getIterators ++ B.getIterators) := by
  rcases List.exists_cons_of_ne_nil hA with ⟨a0, as, hA2⟩
  rcases List.exists_cons_of_ne_nil hB with ⟨b0, bs, hB2⟩
  rcases Option.isSome_iff_exists.mp
    (conjunction_mapOpt_isSome op false hwa hwb) with ⟨pw0, hm⟩
  have hpp : pairPoints A.points B.points
      = (a0, b0) :: (bs.map (fun b2 => (a0, b2)) ++ pairPoints as (b0 :: bs)) := by
    rw [hA2, hB2]
    rfl
  rw [hpp] at hm
  rcases mapOpt_cons_some hm with ⟨p0, pw, hp0, hpw, hshape⟩
  subst hshape
  have hm2 : mapOpt (fun ab => merge op ab.1 ab.2 false)
      (pairPoints A.points B.points) = some (p0 :: pw) := by
    rw [hpp]
    exact hm
  have hd := disjunction_eq_of_pairwise hm2
  rw [hd]
  have hfields := merge_some_fields hp0
  constructor
  · simp
  · simp [MergeLattice.getIterators, hfields.1, hA2, hB2]

theorem conjunction_points_mem {op : TExpr → TExpr → TExpr}
    {A B C : MergeLattice} {p : MergeLatticePoint}
    (h : MergeLattice.conjunction op A B = some C) (hp : p ∈ C.points) :
    ∃ x y, x ∈ A.points ∧ y ∈ B.points ∧ merge op x y true = some p := by
  unfold MergeLattice.conjunction at h
  cases hm : mapOpt (fun ab => merge op ab.1 ab.2 true)
      (pairPoints A.points B.points) with
  | none => rw [hm] at h; cases h
  | some pts =>
    rw [hm] at h
    have hc := Option.some.inj h
    subst hc
    rcases mapOpt_mem hm hp with ⟨ab, hab, hfab⟩
    rcases pairPoints_mem hab with ⟨h1, h2⟩
    exact ⟨ab.1, ab.2, h1, h2, hfab⟩

theorem disjunction_points_mem {op : TExpr → TExpr → TExpr}
    {A B C : MergeLattice} {p : MergeLatticePoint}
    (h : MergeLattice.disjunction op A B = some C) (hp : p ∈ C.points) :
    (∃ x y, x ∈ A.points ∧ y ∈ B.points ∧ merge op x y false = some p)
    ∨ p ∈ A.points ∨ p ∈ B.points := by
  unfold MergeLattice.disjunction at h
  cases hm : mapOpt (fun ab => merge op ab.1 ab.2 false)
      (pairPoints A.points B.points) with
  | none => rw [hm] at h; cases h
  | some pw =>
    rw [hm] at h
    split at h
    · cases h
    · rename_i x2 pairwise2 heq2
      have hpw := Option.some.inj heq2
      subst hpw
      split at h
      · cases h
      · rename_i q qs hall
        split at h
        · cases h
        · have hc := Option.some.inj h
          subst hc
          have hpf : p ∈ (q :: qs).filter
              (fun point => (getDenseIterators q.iterators).all
                (fun d => containsIter point.iterators d)) := hp
          have hp2 : p ∈ q :: qs := List.mem_of_mem_filter hpf
          rw [← hall] at hp2
          rcases List.mem_append.mp hp2 with hp3 | hp3
          · rcases List.mem_append.mp hp3 with hp4 | hp4
            · rcases mapOpt_mem hm hp4 with ⟨ab, hab, hfab⟩
              rcases pairPoints_mem hab with ⟨h1, h2⟩
              exact Or.inl ⟨ab.1, ab.2, h1, h2, hfab⟩
            · exact Or.inr (Or.inl hp4)
          · exact Or.inr (Or.inr hp3)

theorem scale_points (op : TExpr → TExpr → TExpr) (L : MergeLattice)
    (s : TExpr) (ls : Bool) :
    (MergeLattice.scale op L s ls).points
      = L.points.map (fun q => MergeLatticePoint.mk3 q.iterators
          q.mergeIterators (if ls then op s q.expr else op q.expr s)) := rfl

theorem unary_points (op : TExpr → TExpr) (L : MergeLattice) :
    (MergeLattice.unary op L).points
      = L.points.map (fun q => MergeLatticePoint.mk3 q.iterators
          q.mergeIterators (op q.expr)) := rfl

theorem latticeSDOS_disjunction {op : TExpr → TExpr → TExpr}
    {A B C : MergeLattice} (hA : latticeSDOS A) (hB : latticeSDOS B)
    (h : MergeLattice.disjunction op A B = some C) : latticeSDOS C := by
  intro p hp
  rcases disjunction_points_mem h hp with ⟨x, y, hx, hy, hm⟩ | hpa | hpb
  · exact SDOS_merge (hA x hx) (hB y hy) hm
  · exact hA p hpa
  · exact hB p hpb

theorem latticeSDOS_conjunction {op : TExpr → TExpr → TExpr}
    {A B C : MergeLattice} (hA : latticeSDOS A) (hB : latticeSDOS B)
    (h : MergeLattice.conjunction op A B = some C) : latticeSDOS C := by
  intro p hp
  rcases conjunction_points_mem h hp with ⟨x, y, hx, hy, hm⟩
  exact SDOS_merge (hA x hx) (hB y hy) hm

theorem latticeSDOS_scale {op : TExpr → TExpr → TExpr}
    {L : MergeLattice} (s : TExpr) (ls : Bool) (hL : latticeSDOS L) :
    latticeSDOS (MergeLattice.scale op L s ls) := by
  intro p hp
  rw [scale_points] at hp
  rcases List.mem_map.mp hp with ⟨q, hq, he⟩
  subst he
  simpa [MergeLatticePoint.mk3] using hL q hq

theorem latticeSDOS_unary {op : TExpr → TExpr}
    {L : MergeLattice} (hL : latticeSDOS L) :
    latticeSDOS (MergeLattice.unary op L) := by
  intro p hp
  rw [unary_points] at hp
  rcases List.mem_map.mp hp with ⟨q, hq, he⟩
  subst he
  simpa [MergeLatticePoint.mk3] using hL q hq

theorem buildLattice_add_eq (sched : Nat → Iterator) (indexVar : Nat)
    (a b : TExpr) {la lb : MergeLattice}
    (ha : buildLattice sched indexVar a = some la)
    (hb : buildLattice sched indexVar b = some lb) :
    buildLattice sched indexVar (.add a b) =
      if la.defined && lb.defined then MergeLattice.disjunction .add la lb
      else if la.defined then some (MergeLattice.scale .add la b false)
      else if lb.defined then some (MergeLattice.scale .add lb a true)
      else some ⟨[]⟩ := by
  unfold buildLattice
  rw [ha, hb]

theorem buildLattice_sub_eq (sched : Nat → Iterator) (indexVar : Nat)
    (a b : TExpr) {la lb : MergeLattice}
    (ha : buildLattice sched indexVar a = some la)
    (hb : buildLattice sched indexVar b = some lb) :
    buildLattice sched indexVar (.sub a b) =
      if la.defined && lb.defined then MergeLattice.disjunction .sub la lb
      else if la.defined then some (MergeLattice.scale .sub la b false)
      else if lb.defined then some (MergeLattice.scale .sub lb a true)
      else some ⟨[]⟩ := by
  unfold buildLattice
  rw [ha, hb]

theorem buildLattice_mul_eq (sched : Nat → Iterator) (indexVar : Nat)
    (a b : TExpr) {la lb : MergeLattice}
    (ha : buildLattice sched indexVar a = some la)
    (hb : buildLattice sched indexVar b = some lb) :
    buildLattice sched indexVar (.mul a b) =
      if la.defined && lb.defined then MergeLattice.conjunction .mul la lb
      else if la.defined then some (MergeLattice.scale .mul la b false)
      else if lb.defined then some (MergeLattice.scale .mul lb a true)
      else some ⟨[]⟩ := by
  unfold buildLattice
  rw [ha, hb]

theorem buildLattice_div_eq (sched : Nat → Iterator) (indexVar : Nat)
    (a b : TExpr) {la lb : MergeLattice}
    (ha : buildLattice sched indexVar a = some la)
    (hb : buildLattice sched indexVar b = some lb) :
    buildLattice sched indexVar (.div a b) =
      if la.defined && lb.defined then MergeLattice.conjunction .div la lb
      else if la.defined then some (MergeLattice.scale .div la b false)
      else if lb.defined then some (MergeLattice.scale .div lb a true)
      else some ⟨[]⟩ := by
  unfold buildLattice
  rw [ha, hb]

theorem buildLattice_SDOS (sched : Nat → Iterator) (indexVar : Nat) :
    ∀ (e : TExpr) (L : MergeLattice),
      buildLattice sched indexVar e = some L → latticeSDOS L := by
  intro e
  induction e with
  | read t ivs =>
    intro L h
    unfold buildLattice at h
    split at h
    · have hc := Option.some.inj h
      subst hc
      intro p hp
      rcases List.mem_singleton.mp hp with rfl
      simp [MergeLatticePoint.mk3, singleDenseOrAllSparse]
    · have hc := Option.some.inj h
      subst hc
      intro p hp
      cases hp
  | neg a ih =>
    intro L h
    unfold buildLattice at h
    cases hb : buildLattice sched indexVar a with
    | none => rw [hb] at h; cases h
    | some la =>
      rw [hb] at h
      have hc := Option.some.inj h
      subst hc
      exact latticeSDOS_unary (ih la hb)
  | sqrt a ih =>
    intro L h
    unfold buildLattice at h
    cases hb : buildLattice sched indexVar a with
    | none => rw [hb] at h; cases h
    | some la =>
      rw [hb] at h
      have hc := Option.some.inj h
      subst hc
      exact latticeSDOS_unary (ih la hb)
  | add a b iha ihb =>
    intro L h
    cases ha2 : buildLattice sched indexVar a with
    | none =>
      unfold buildLattice at h
      rw [ha2] at h
      cases hb3 : buildLattice sched indexVar b <;> rw [hb3] at h <;> cases h
    | some la =>
      cases hb2 : buildLattice sched indexVar b with
      | none =>
        unfold buildLattice at h
        rw [ha2, hb2] at h
        cases h
      | some lb =>
        rw [buildLattice_add_eq sched indexVar a b ha2 hb2] at h
        split at h
        · exact latticeSDOS_disjunction (iha la ha2) (ihb lb hb2) h
        · split at h
          · have hc := Option.some.inj h
            subst hc
            exact latticeSDOS_scale b false (iha la ha2)
          · split at h
            · have hc := Option.some.inj h
              subst hc
              exact latticeSDOS_scale a true (ihb lb hb2)
            · have hc := Option.some.inj h
              subst hc
              intro p hp
              cases hp
  | sub a b iha ihb =>
    intro L h
    cases ha2 : buildLattice sched indexVar a with
    | none =>
      unfold buildLattice at h
      rw [ha2] at h
      cases hb3 : buildLattice sched indexVar b <;> rw [hb3] at h <;> cases h
    | some la =>
      cases hb2 : buildLattice sched indexVar b with
      | none =>
        unfold buildLattice at h
        rw [ha2, hb2] at h
        cases h
      | some lb =>
        rw [buildLattice_sub_eq sched indexVar a b ha2 hb2] at h
        split at h
        · exact latticeSDOS_disjunction (iha la ha2) (ihb lb hb2) h
        · split at h
          · have hc := Option.some.inj h
            subst hc
            exact latticeSDOS_scale b false (iha la ha2)
          · split at h
            · have hc := Option.some.inj h
              subst hc
              exact latticeSDOS_scale a true (ihb lb hb2)
            · have hc := Option.some.inj h
              subst hc
              intro p hp
              cases hp
  | mul a b iha ihb =>
    intro L h
    cases ha2 : buildLattice sched indexVar a with
    | none =>
      unfold buildLattice at h
      rw [ha2] at h
      cases hb3 : buildLattice sched indexVar b <;> rw [hb3] at h <;> cases h
    | some la =>
      cases hb2 : buildLattice sched indexVar b with
      | none =>
        unfold buildLattice at h
        rw [ha2, hb2] at h
        cases h
      | some lb =>
        rw [buildLattice_mul_eq sched indexVar a b ha2 hb2] at h
        split at h
        · exact latticeSDOS_conjunction (iha la ha2) (ihb lb hb2) h
        · split at h
          · have hc := Option.some.inj h
            subst hc
            exact latticeSDOS_scale b false (iha la ha2)
          · split at h
            · have hc := Option.some.inj h
              subst hc
              exact latticeSDOS_scale a true (ihb lb hb2)
            · have hc := Option.some.inj h
              subst hc
              intro p hp
              cases hp
  | div a b iha ihb =>
    intro L h
    cases ha2 : buildLattice sched indexVar a with
    | none =>
      unfold buildLattice at h
      rw [ha2] at h
      cases hb3 : buildLattice sched indexVar b <;> rw [hb3] at h <;> cases h
    | some la =>
      cases hb2 : buildLattice sched indexVar b with
      | none =>
        unfold buildLattice at h
        rw [ha2, hb2] at h
        cases h
      | some lb =>
        rw [buildLattice_div_eq sched indexVar a b ha2 hb2] at h
        split at h
        · exact latticeSDOS_conjunction (iha la ha2) (ihb lb hb2) h
        · split at h
          · have hc := Option.some.inj h
            subst hc
            exact latticeSDOS_scale b false (iha la ha2)
          · split at h
            · have hc := Option.some.inj h
              subst hc
              exact latticeSDOS_scale a true (ihb lb hb2)
            · have hc := Option.some.inj h
              subst hc
              intro p hp
              cases hp
  | intImm v => intro L h; cases h
  | floatImm v => intro L h; cases h
  | doubleImm v => intro L h; cases h

/-- C4: merge preserves the single-dense-or-all-sparse shape of the
mergeIterators list, and consequently every point of every lattice the
builder creates satisfies that invariant. -/
theorem mergeIterators_invariant_preserved :
    (∀ (op : TExpr → TExpr → TExpr) (a b : MergeLatticePoint) (c : Bool)
        (p : MergeLatticePoint),
      singleDenseOrAllSparse a.mergeIterators = true →
      singleDenseOrAllSparse b.mergeIterators = true →
      merge op a b c = some p →
      singleDenseOrAllSparse p.mergeIterators = true)
    ∧ (∀ (sched : Nat → Iterator) (indexVar : Nat) (e : TExpr)
        (L : MergeLattice) (p : MergeLatticePoint),
      buildLattice sched indexVar e = some L → p ∈ L.points →
      singleDenseOrAllSparse p.mergeIterators = true) :=
  ⟨fun _ _ _ _ _ hia hib h => SDOS_merge hia hib h,
   fun sched indexVar e L p h hp => buildLattice_SDOS sched indexVar e L h p hp⟩

theorem mergeIterators_invariant_preserved_witness :
    singleDenseOrAllSparse
      (⟨[sA, dD], [sA], [dD],
        .add (.read 0 [0]) (.read 1 [0])⟩ : MergeLatticePoint).mergeIterators
      = true :=
  mergeIterators_invariant_preserved.2 exSched 0 exExpr
    ⟨[⟨[sA, dD], [sA], [dD], .add (.read 0 [0]) (.read 1 [0])⟩,
      ⟨[dD], [dD], [dD], .read 1 [0]⟩]⟩
    ⟨[sA, dD], [sA], [dD], .add (.read 0 [0]) (.read 1 [0])⟩
    (by decide) (by decide)

theorem getIterators_cons {L : MergeLattice} {p : MergeLatticePoint}
    {t : List MergeLatticePoint} (h : L.points = p :: t) :
    L.getIterators = p.iterators := by
  unfold MergeLattice.getIterators
  rw [h]

theorem pairPoints_nil_right :
    ∀ (A : List MergeLatticePoint), pairPoints A [] = [] := by
  intro A
  induction A with
  | nil => rfl
  | cons a as ih => simp [pairPoints, ih]

theorem denseTopProp_disjunction {op : TExpr → TExpr → TExpr}
    {A B C : MergeLattice}
    (h : MergeLattice.disjunction op A B = some C) : denseTopProp C := by
  unfold MergeLattice.disjunction at h
  cases hm : mapOpt (fun ab => merge op ab.1 ab.2 false)
      (pairPoints A.points B.points) with
  | none => rw [hm] at h; cases h
  | some pw =>
    rw [hm] at h
    split at h
    · cases h
    · rename_i x2 pairwise2 heq2
      have hpw := Option.some.inj heq2
      subst hpw
      split at h
      · cases h
      · rename_i q qs hall
        split at h
        · cases h
        · have hc := Option.some.inj h
          subst hc
          intro p hp d hdense hdtop
          have hpf : p ∈ (q :: qs).filter
              (fun point => (getDenseIterators q.iterators).all
                (fun d => containsIter point.iterators d)) := hp
          have hpred := List.of_mem_filter hpf
          have hpoints : (⟨(q :: qs).filter
              (fun point => (getDenseIterators q.iterators).all
                (fun d => containsIter point.iterators d))⟩
                : MergeLattice).points
              = q :: qs.filter
                (fun point => (getDenseIterators q.iterators).all
                  (fun d => containsIter point.iterators d)) :=
            filter_dense_head q qs
          have hiter := getIterators_cons hpoints
          rw [hiter] at hdtop
          have hd2 : d ∈ getDenseIterators q.iterators := by
            unfold getDenseIterators
            exact List.mem_filter.mpr ⟨hdtop, by simp [hdense]⟩
          have := List.all_eq_true.mp hpred d hd2
          exact (containsIter_iff _ _).mp this

theorem denseTopProp_conjunction {op : TExpr → TExpr → TExpr}
    {A B C : MergeLattice} (hA : denseTopProp A) (hB : denseTopProp B)
    (h : MergeLattice.conjunction op A B = some C) : denseTopProp C := by
  unfold MergeLattice.conjunction at h
  cases hm : mapOpt (fun ab => merge op ab.1 ab.2 true)
      (pairPoints A.points B.points) with
  | none => rw [hm] at h; cases h
  | some pts =>
    rw [hm] at h
    have hc := Option.some.inj h
    subst hc
    intro p hp d hdense hdtop
    cases hA2 : A.points with
    | nil =>
      rw [hA2] at hm
      have hpts : pts = [] := (Option.some.inj hm).symm
      subst hpts
      cases hp
    | cons a0 as =>
      cases hB2 : B.points with
      | nil =>
        rw [hA2, hB2, pairPoints_nil_right] at hm
        have hpts : pts = [] := (Option.some.inj hm).symm
        subst hpts
        cases hp
      | cons b0 bs =>
        have hpp : pairPoints A.points B.points
            = (a0, b0) :: (bs.map (fun b2 => (a0, b2))
                ++ pairPoints as (b0 :: bs)) := by
          rw [hA2, hB2]
          rfl
        rw [hpp] at hm
        rcases mapOpt_cons_some hm with ⟨p0, ptail, hp0, hptail, hshape⟩
        subst hshape
        have hiter := getIterators_cons
          (show (⟨p0 :: ptail⟩ : MergeLattice).points = p0 :: ptail from rfl)
        rw [hiter] at hdtop
        have hp0f := merge_some_fields hp0
        rw [hp0f.1] at hdtop
        have hm2 : mapOpt (fun ab => merge op ab.1 ab.2 true)
            (pairPoints A.points B.points) = some (p0 :: ptail) := by
          rw [hpp]
          exact hm
        have hp2 : p ∈ p0 :: ptail := hp
        rcases mapOpt_mem hm2 hp2 with ⟨ab, hab, hfab⟩
        rcases pairPoints_mem hab with ⟨hx, hy⟩
        have hpf := merge_some_fields hfab
        rw [hpf.1]
        rcases List.mem_append.mp hdtop with hda | hdb
        · have : d ∈ ab.1.iterators :=
            hA ab.1 hx d hdense (by rw [getIterators_cons hA2]; exact hda)
          exact List.mem_append.mpr (Or.inl this)
        · have : d ∈ ab.2.iterators :=
            hB ab.2 hy d hdense (by rw [getIterators_cons hB2]; exact hdb)
          exact List.mem_append.mpr (Or.inr this)

theorem denseTopProp_map_iter {L : MergeLattice}
    {f : MergeLatticePoint → MergeLatticePoint}
    (hf : ∀ q, (f q).iterators = q.iterators)
    (hL : denseTopProp L) : denseTopProp ⟨L.points.map f⟩ := by
  intro p hp d hdense hdtop
  rcases List.mem_map.mp hp with ⟨q, hq, he⟩
  subst he
  rw [hf]
  cases hL2 : L.points with
  | nil =>
    rw [hL2] at hq
    cases hq
  | cons q0 qs =>
    have hgi : MergeLattice.getIterators ⟨L.points.map f⟩ = q0.iterators := by
      have : (⟨L.points.map f⟩ : MergeLattice).points
          = f q0 :: qs.map f := by
        simp [hL2]
      rw [getIterators_cons this, hf]
    rw [hgi] at hdtop
    exact hL q hq d hdense (by rw [getIterators_cons hL2]; exact hdtop)

theorem denseTopProp_scale (op : TExpr → TExpr → TExpr) (L : MergeLattice)
    (s : TExpr) (ls : Bool) (hL : denseTopProp L) :
    denseTopProp (MergeLattice.scale op L s ls) :=
  denseTopProp_map_iter (fun q => rfl) hL

theorem denseTopProp_unary (op : TExpr → TExpr) (L : MergeLattice)
    (hL : denseTopProp L) : denseTopProp (MergeLattice.unary op L) :=
  denseTopProp_map_iter (fun q => rfl) hL

theorem buildLattice_denseTop (sched : Nat → Iterator) (indexVar : Nat) :
    ∀ (e : TExpr) (L : MergeLattice),
      buildLattice sched indexVar e = some L → denseTopProp L := by
  intro e
  induction e with
  | read t ivs =>
    intro L h
    unfold buildLattice at h
    split at h
    · have hc := Option.some.inj h
      subst hc
      intro p hp d hdense hdtop
      rcases List.mem_singleton.mp hp with rfl
      rw [getIterators_cons (show _ = _ from rfl)] at hdtop
      exact hdtop
    · have hc := Option.some.inj h
      subst hc
      intro p hp
      cases hp
  | neg a ih =>
    intro L h
    unfold buildLattice at h
    cases hb : buildLattice sched indexVar a with
    | none => rw [hb] at h; cases h
    | some la =>
      rw [hb] at h
      have hc := Option.some.inj h
      subst hc
      exact denseTopProp_unary _ la (ih la hb)
  | sqrt a ih =>
    intro L h
    unfold buildLattice at h
    cases hb : buildLattice sched indexVar a with
    | none => rw [hb] at h; cases h
    | some la =>
      rw [hb] at h
      have hc := Option.some.inj h
      subst hc
      exact denseTopProp_unary _ la (ih la hb)
  | add a b iha ihb =>
    intro L h
    cases ha2 : buildLattice sched indexVar a with
    | none =>
      unfold buildLattice at h
      rw [ha2] at h
      cases hb3 : buildLattice sched indexVar b <;> rw [hb3] at h <;> cases h
    | some la =>
      cases hb2 : buildLattice sched indexVar b with
      | none =>
        unfold buildLattice at h
        rw [ha2, hb2] at h
        cases h
      | some lb =>
        rw [buildLattice_add_eq sched indexVar a b ha2 hb2] at h
        split at h
        · exact denseTopProp_disjunction h
        · split at h
          · have hc := Option.some.inj h
            subst hc
            exact denseTopProp_scale _ la b false (iha la ha2)
          · split at h
            · have hc := Option.some.inj h
              subst hc
              exact denseTopProp_scale _ lb a true (ihb lb hb2)
            · have hc := Option.some.inj h
              subst hc
              intro p hp
              cases hp
  | sub a b iha ihb =>
    intro L h
    cases ha2 : buildLattice sched indexVar a with
    | none =>
      unfold buildLattice at h
      rw [ha2] at h
      cases hb3 : buildLattice sched indexVar b <;> rw [hb3] at h <;> cases h
    | some la =>
      cases hb2 : buildLattice sched indexVar b with
      | none =>
        unfold buildLattice at h
        rw [ha2, hb2] at h
        cases h
      | some lb =>
        rw [buildLattice_sub_eq sched indexVar a b ha2 hb2] at h
        split at h
        · exact denseTopProp_disjunction h
        · split at h
          · have hc := Option.some.inj h
            subst hc
            exact denseTopProp_scale _ la b false (iha la ha2)
          · split at h
            · have hc := Option.some.inj h
              subst hc
              exact denseTopProp_scale _ lb a true (ihb lb hb2)
            · have hc := Option.some.inj h
              subst hc
              intro p hp
              cases hp
  | mul a b iha ihb =>
    intro L h
    cases ha2 : buildLattice sched indexVar a with
    | none =>
      unfold buildLattice at h
      rw [ha2] at h
      cases hb3 : buildLattice sched indexVar b <;> rw [hb3] at h <;> cases h
    | some la =>
      cases hb2 : buildLattice sched indexVar b with
      | none =>
        unfold buildLattice at h
        rw [ha2, hb2] at h
        cases h
      | some lb =>
        rw [buildLattice_mul_eq sched indexVar a b ha2 hb2] at h
        split at h
        · exact denseTopProp_conjunction (iha la ha2) (ihb lb hb2) h
        · split at h
          · have hc := Option.some.inj h
            subst hc
            exact denseTopProp_scale _ la b false (iha la ha2)
          · split at h
            · have hc := Option.some.inj h
              subst hc
              exact denseTopProp_scale _ lb a true (ihb lb hb2)
            · have hc := Option.some.inj h
              subst hc
              intro p hp
              cases hp
  | div a b iha ihb =>
    intro L h
    cases ha2 : buildLattice sched indexVar a with
    | none =>
      unfold buildLattice at h
      rw [ha2] at h
      cases hb3 : buildLattice sched indexVar b <;> rw [hb3] at h <;> cases h
    | some la =>
      cases hb2 : buildLattice sched indexVar b with
      | none =>
        unfold buildLattice at h
        rw [ha2, hb2] at h
        cases h
      | some lb =>
        rw [buildLattice_div_eq sched indexVar a b ha2 hb2] at h
        split at h
        · exact denseTopProp_conjunction (iha la ha2) (ihb lb hb2) h
        · split at h
          · have hc := Option.some.inj h
            subst hc
            exact denseTopProp_scale _ la b false (iha la ha2)
          · split at h
            · have hc := Option.some.inj h
              subst hc
              exact denseTopProp_scale _ lb a true (ihb lb hb2)
            · have hc := Option.some.inj h
              subst hc
              intro p hp
              cases hp
  | intImm v => intro L h; cases h
  | floatImm v => intro L h; cases h
  | doubleImm v => intro L h; cases h

theorem denseTopInvariant_of_prop {L : MergeLattice} (h : denseTopProp L) :
    denseTopInvariant L = true := by
  unfold denseTopInvariant
  simp only [List.all_eq_true]
  intro p hp d hd
  have hdm := List.mem_filter.mp hd
  exact decide_eq_true (h p hp d (by simpa using hdm.2) hdm.1)

/-- C2: in every lattice the builder produces, and in particular after
lattice disjunction, every dense iterator of the first point appears in
the iterator list of every point. -/
theorem builder_dense_top (sched : Nat → Iterator) (indexVar : Nat)
    (e : TExpr) (L : MergeLattice)
    (h : buildLattice sched indexVar e = some L) :
    denseTopInvariant L = true :=
  denseTopInvariant_of_prop (buildLattice_denseTop sched indexVar e L h)

theorem builder_dense_top_witness :
    denseTopInvariant
      ⟨[⟨[sA, dD], [sA], [dD], .add (.read 0 [0]) (.read 1 [0])⟩,
        ⟨[dD], [dD], [dD], .read 1 [0]⟩]⟩ = true :=
  builder_dense_top exSched 0 exExpr
    ⟨[⟨[sA, dD], [sA], [dD], .add (.read 0 [0]) (.read 1 [0])⟩,
      ⟨[dD], [dD], [dD], .read 1 [0]⟩]⟩ (by decide)

theorem includes_iff_sublist :
    ∀ (big small : List Iterator), List.Sorted iterLE big →
      List.Sorted iterLE small →
      (includesSorted big small = true ↔ small.Sublist big) := by
  intro big
  induction big with
  | nil =>
    intro small hb hs
    cases small with
    | nil => simp [includesSorted]
    | cons y ys =>
      simp only [includesSorted, Bool.false_eq_true, false_iff]
      intro hsub
      cases hsub
  | cons x xs ih =>
    intro small hb hs
    cases small with
    | nil => simp [includesSorted, List.nil_sublist]
    | cons y ys =>
      rw [List.sorted_cons] at hb
      by_cases h1 : y.key < x.key
      · simp only [includesSorted, if_pos h1, Bool.false_eq_true, false_iff]
        intro hsub
        have hy : y ∈ x :: xs := hsub.subset (List.mem_cons_self y ys)
        rcases List.mem_cons.mp hy with rfl | hy2
        · exact absurd h1 (lt_irrefl _)
        · exact absurd (lt_of_lt_of_le h1 (hb.1 y hy2)) (lt_irrefl _)
      · by_cases h2 : x.key < y.key
        · simp only [includesSorted, if_neg h1, if_pos h2]
          rw [ih (y :: ys) hb.2 hs]
          constructor
          · intro hsub
            exact List.Sublist.cons x hsub
          · intro hsub
            cases hsub with
            | cons _ h3 => exact h3
            | cons₂ _ h3 => exact absurd h2 (lt_irrefl _)
        · have hxy : x = y := antisymm
            (show iterLE x y from Nat.le_of_not_lt h1)
            (show iterLE y x from Nat.le_of_not_lt h2)
          subst hxy
          simp only [includesSorted, if_neg h1, if_neg h2]
          rw [List.cons_sublist_cons]
          exact ih ys hb.2 (List.sorted_cons.mp hs).2

theorem sortIters_sorted (l : List Iterator) :
    List.Sorted iterLE (sortIters l) :=
  List.sorted_insertionSort iterLE l

theorem sortIters_perm (l : List Iterator) : (sortIters l).Perm l :=
  List.perm_insertionSort iterLE l

theorem includes_iff_subperm (xs ys : List Iterator) :
    includesSorted (sortIters xs) (sortIters ys) = true ↔ List.Subperm ys xs := by
  rw [includes_iff_sublist (sortIters xs) (sortIters ys)
    (sortIters_sorted xs) (sortIters_sorted ys)]
  constructor
  · intro h
    have h2 : List.Subperm (sortIters ys) (sortIters xs) := h.subperm
    have h3 : List.Subperm ys (sortIters xs) := (sortIters_perm ys).subperm_right.mp h2
    exact (sortIters_perm xs).subperm_left.mp h3
  · intro h
    have h2 : List.Subperm (sortIters ys) xs := (sortIters_perm ys).subperm_right.mpr h
    have h3 : List.Subperm (sortIters ys) (sortIters xs) :=
      (sortIters_perm xs).subperm_left.mpr h2
    exact List.sublist_of_subperm_of_sorted h3 (sortIters_sorted ys)
      (sortIters_sorted xs)

/-- C6: the sub-lattice at a point p of L consists of exactly the points
of L whose iterator multiset, compared through the sorted-inclusion
test, is contained in the iterator multiset of p, in the order of L; in
particular p belongs to its own sub-lattice, which therefore has at
least one point. -/
theorem getSubLattice_spec (L : MergeLattice) (p : MergeLatticePoint)
    (hp : p ∈ L.points) :
    (L.getSubLattice p).points
        = L.points.filter (fun q => decide (List.Subperm q.iterators p.iterators))
    ∧ p ∈ (L.getSubLattice p).points
    ∧ 1 ≤ (L.getSubLattice p).getSize := by
  have hfe : (L.getSubLattice p).points
      = L.points.filter (fun q => decide (List.Subperm q.iterators p.iterators)) := by
    unfold MergeLattice.getSubLattice
    apply List.filter_congr
    intro q hq
    have hiff := includes_iff_subperm p.iterators q.iterators
    by_cases hs : List.Subperm q.iterators p.iterators
    · rw [hiff.mpr hs]
      exact (decide_eq_true hs).symm
    · rw [Bool.eq_false_iff.mpr (fun hc => hs (hiff.mp hc))]
      exact (decide_eq_false hs).symm
  have hmem : p ∈ (L.getSubLattice p).points := by
    rw [hfe]
    exact List.mem_filter.mpr ⟨hp, decide_eq_true (List.Subperm.refl _)⟩
  refine ⟨hfe, hmem, ?_⟩
  have := List.length_pos_of_mem hmem
  exact this

theorem getSubLattice_spec_witness :
    ((MergeLattice.getSubLattice ⟨[⟨[sA, dD], [sA], [dD], exExpr⟩, pA, pD]⟩
        ⟨[sA, dD], [sA], [dD], exExpr⟩).points
      = (⟨[⟨[sA, dD], [sA], [dD], exExpr⟩, pA, pD]⟩
          : MergeLattice).points.filter
        (fun q => decide (List.Subperm q.iterators
          (⟨[sA, dD], [sA], [dD], exExpr⟩
            : MergeLatticePoint).iterators)))
    ∧ (⟨[sA, dD], [sA], [dD], exExpr⟩ : MergeLatticePoint)
        ∈ (MergeLattice.getSubLattice
            ⟨[⟨[sA, dD], [sA], [dD], exExpr⟩, pA, pD]⟩
            ⟨[sA, dD], [sA], [dD], exExpr⟩).points
    ∧ 1 ≤ (MergeLattice.getSubLattice
          ⟨[⟨[sA, dD], [sA], [dD], exExpr⟩, pA, pD]⟩
          ⟨[sA, dD], [sA], [dD], exExpr⟩).getSize :=
  getSubLattice_spec ⟨[⟨[sA, dD], [sA], [dD], exExpr⟩, pA, pD]⟩
    ⟨[sA, dD], [sA], [dD], exExpr⟩ (by decide)

theorem simplify_keeps_sparse_idempotent_witness :
    (simplify (sA :: [dD]) =
      if (sA :: [dD]).all (fun i => i.isDense) then [sA]
      else (sA :: [dD]).filter (fun i => !i.isDense))
    ∧ simplify (sA :: [dD]) ≠ []
    ∧ simplify (simplify (sA :: [dD])) = simplify (sA :: [dD]) :=
  simplify_keeps_sparse_idempotent sA [dD]

theorem conjunction_shape_witness :
    ((MergeLattice.conjunction TExpr.mul ⟨[pA, pD]⟩ ⟨[pD]⟩).map
        MergeLattice.getSize
      = some ((⟨[pA, pD]⟩ : MergeLattice).getSize
          * (⟨[pD]⟩ : MergeLattice).getSize))
    ∧ ((MergeLattice.conjunction TExpr.mul ⟨[pD]⟩ ⟨[pA, pD]⟩).map
        MergeLattice.getSize
      = some ((⟨[pA, pD]⟩ : MergeLattice).getSize
          * (⟨[pD]⟩ : MergeLattice).getSize))
    ∧ ((MergeLattice.conjunction TExpr.mul ⟨[pA, pD]⟩ ⟨[pD]⟩).map
        MergeLattice.points
      = mapOpt (fun ab => merge TExpr.mul ab.1 ab.2 true)
          (pairPoints (⟨[pA, pD]⟩ : MergeLattice).points
            (⟨[pD]⟩ : MergeLattice).points)) :=
  conjunction_shape TExpr.mul ⟨[pA, pD]⟩ ⟨[pD]⟩ (by decide) (by decide)
    (by decide) (by decide)

theorem disjunction_defined_witness :
    ((MergeLattice.disjunction TExpr.add ⟨[pA]⟩ ⟨[pD]⟩).map
        (fun C => C.points.isEmpty) = some false)
    ∧ ((MergeLattice.disjunction TExpr.add ⟨[pA]⟩ ⟨[pD]⟩).map
        MergeLattice.getIterators
      = some ((⟨[pA]⟩ : MergeLattice).getIterators
          ++ (⟨[pD]⟩ : MergeLattice).getIterators)) :=
  disjunction_defined TExpr.add ⟨[pA]⟩ ⟨[pD]⟩ (by decide) (by decide)
    (by decide) (by decide)
